import Mathlib

/-
Verification of the Rustneedle core library (src/lib.rs): the hook/module
orchestration engine (Framework), the shared host state (HostMgr, KnownPair,
NetPairList) and the batch plugin-loading protocol.

The Rust code is shallowly embedded: structs become structures, HashMap
becomes an insertion-ordered association list with unique keys, Arc<Mutex<_>>
cells become identifiers into an explicit Store heap, and stateful methods
become explicit state-passing functions.  External resources (thread handles,
mpsc channels, dynamic libraries) are opaque to this core and are modelled by
identifiers or by their observable outcome at the boundary.
-/

namespace Rustneedle

/-- An IPv4 address (std::net::Ipv4Addr), four octets. -/
structure Ipv4Addr where
  o1 : Nat
  o2 : Nat
  o3 : Nat
  o4 : Nat
deriving DecidableEq, Repr

/-- A MAC address (pnet MacAddr), six octets. -/
structure MacAddr where
  b1 : Nat
  b2 : Nat
  b3 : Nat
  b4 : Nat
  b5 : Nat
  b6 : Nat
deriving DecidableEq, Repr

/-- `KnownPair`: an IP and MAC address pair that must be known. -/
structure KnownPair where
  proto : Ipv4Addr
  hardw : MacAddr
deriving DecidableEq, Repr

/-- `KnownPair::new`. -/
def KnownPair.new (ip : Ipv4Addr) (hw : MacAddr) : KnownPair :=
  { proto := ip, hardw := hw }

/-- `NetPairList`: a list of pairs that may or may not be known.  The
`macs` HashMap is modelled as an association list from address to optional
hardware address. -/
structure NetPairList where
  hosts : List Ipv4Addr
  macs : List (Ipv4Addr × Option MacAddr)
deriving DecidableEq, Repr

/-- `NetPairList::new`: created empty. -/
def NetPairList.new : NetPairList :=
  { hosts := [], macs := [] }

/-- `NetPairList::len`: length of the `hosts` vector. -/
def NetPairList.len (l : NetPairList) : Nat :=
  l.hosts.length

/-- `NetPairList::hosts`: read-only view of the ordered host sequence. -/
def NetPairList.hostsView (l : NetPairList) : List Ipv4Addr :=
  l.hosts

/-- `NetPairList::macs`: read-only view of the resolution mapping. -/
def NetPairList.macsView (l : NetPairList) : List (Ipv4Addr × Option MacAddr) :=
  l.macs

/-- `NetPairList::get`: `self.hosts.get(index)`, the element at `index`
or nothing when out of range. -/
def NetPairList.get (l : NetPairList) (index : Nat) : Option Ipv4Addr :=
  l.hosts[index]?

/-- The heap of lock-protected shared cells.  Each `Arc<Mutex<KnownPair>>`
(resp. `Arc<Mutex<NetPairList>>`) is a cell identifier into this store;
cloning an `Arc` copies the identifier, never the contents.  Reading or
writing a cell models acquiring the Mutex, accessing the value and releasing
the lock. -/
structure Store where
  nextId : Nat
  pairCells : List (Nat × KnownPair)
  listCells : List (Nat × NetPairList)

/-- Read the `KnownPair` cell with the given identifier. -/
def Store.readPair (s : Store) (id : Nat) : Option KnownPair :=
  (s.pairCells.find? (fun c => c.1 == id)).map Prod.snd

/-- Overwrite the `KnownPair` cell with the given identifier. -/
def Store.writePair (s : Store) (id : Nat) (v : KnownPair) : Store :=
  { s with pairCells :=
      if s.pairCells.any (fun c => c.1 == id) then
        s.pairCells.map (fun c => if c.1 == id then (id, v) else c)
      else
        (id, v) :: s.pairCells }

/-- Read the `NetPairList` cell with the given identifier. -/
def Store.readList (s : Store) (id : Nat) : Option NetPairList :=
  (s.listCells.find? (fun c => c.1 == id)).map Prod.snd

/-- Overwrite the `NetPairList` cell with the given identifier. -/
def Store.writeList (s : Store) (id : Nat) (v : NetPairList) : Store :=
  { s with listCells :=
      if s.listCells.any (fun c => c.1 == id) then
        s.listCells.map (fun c => if c.1 == id then (id, v) else c)
      else
        (id, v) :: s.listCells }

/-- `HostMgr`: safe shared references to hosts on the network.  Each field
is an `Arc<Mutex<_>>`, modelled as the identifier of its cell in the
`Store`. -/
structure HostMgr where
  gateway : Nat
  myself : Nat
  nethosts : Nat
deriving DecidableEq, Repr

/-- `HostMgr::new`: allocates three fresh cells, the host list starting
empty. -/
def HostMgr.new (s : Store) (gate me : KnownPair) : HostMgr × Store :=
  (⟨s.nextId, s.nextId + 1, s.nextId + 2⟩,
   { nextId := s.nextId + 3,
     pairCells := (s.nextId, gate) :: (s.nextId + 1, me) :: s.pairCells,
     listCells := (s.nextId + 2, NetPairList.new) :: s.listCells })

/-- `HostMgr::get_gateway`: `self.gateway.clone()` — a new `Arc` handle to
the same cell, i.e. the same identifier. -/
def HostMgr.get_gateway (m : HostMgr) : Nat :=
  m.gateway

/-- `HostMgr::get_myself`. -/
def HostMgr.get_myself (m : HostMgr) : Nat :=
  m.myself

/-- `HostMgr::get_nethosts`. -/
def HostMgr.get_nethosts (m : HostMgr) : Nat :=
  m.nethosts

/-- `impl Clone for HostMgr`: clones each `Arc` field — the new handle
carries the same three cell identifiers. -/
def HostMgr.clone (m : HostMgr) : HostMgr :=
  { gateway := m.gateway, myself := m.myself, nethosts := m.nethosts }

/-- `acquire_gateway` followed by a read of the guarded value. -/
def HostMgr.readGateway (m : HostMgr) (s : Store) : Option KnownPair :=
  s.readPair m.gateway

/-- `acquire_gateway` followed by overwriting the guarded value and
releasing the lock. -/
def HostMgr.writeGateway (m : HostMgr) (s : Store) (v : KnownPair) : Store :=
  s.writePair m.gateway v

/-- `acquire_myself` followed by a read of the guarded value. -/
def HostMgr.readMyself (m : HostMgr) (s : Store) : Option KnownPair :=
  s.readPair m.myself

/-- `acquire_myself` followed by overwriting the guarded value. -/
def HostMgr.writeMyself (m : HostMgr) (s : Store) (v : KnownPair) : Store :=
  s.writePair m.myself v

/-- `acquire_nethosts` followed by a read of the guarded value. -/
def HostMgr.readNethosts (m : HostMgr) (s : Store) : Option NetPairList :=
  s.readList m.nethosts

/-- `acquire_nethosts` followed by overwriting the guarded value. -/
def HostMgr.writeNethosts (m : HostMgr) (s : Store) (v : NetPairList) : Store :=
  s.writeList m.nethosts v

/-- `PackFilter`: what slice of an inbound frame a module wants.  The
`Sender<Arc<Vec<u8>>>` channel ends are external resources, modelled as
opaque identifiers. -/
inductive PackFilter where
  | Closed : PackFilter
  | Entire (ch : Nat) : PackFilter
  | EtherFrame (ch : Nat) : PackFilter
  | Payload (ch : Nat) : PackFilter
deriving DecidableEq, Repr

/-- `Module`: a threaded background addition.  The `JoinHandle` and the
mpsc channel ends are external resources, modelled as opaque identifiers. -/
structure Module where
  handle : Nat
  killer : Nat
  packet_sender : Option Nat
  filter : PackFilter
deriving DecidableEq, Repr

/-- `Module::new`. -/
def Module.new (handle killer : Nat) (packet_sender : Option Nat)
    (filter : PackFilter) : Module :=
  { handle := handle, killer := killer, packet_sender := packet_sender,
    filter := filter }

/-- `Hook`: a capability-scoped callable returning
`Result<Option<Module>, String>`.
`fwk` embeds `Hook::Framework(fn(&[&str], &Framework) -> ...)`: the hook
body is an external plugin and its borrow of the Framework is immutable, so
the embedding abstracts the read-only borrowed context and keeps only the
dependence on the arguments.
`host` embeds `Hook::HostMgr(fn(&[&str], &mut HostMgr) -> ...)`: the hook
receives the HostMgr handle mutably and returns its (possibly updated)
state alongside the result. -/
inductive Hook where
  | fwk (f : List String → Except String (Option Module)) : Hook
  | host (f : List String → HostMgr → Except String (Option Module) × HostMgr) : Hook

/-- The dispatch on a hook's capability tag performed inside
`Framework::try_run_hook`:
`Hook::Framework(h) => h(args, self)` leaves the host state untouched;
`Hook::HostMgr(h) => h(args, &mut self.hosts)` may update it. -/
def Hook.call (hook : Hook) (args : List String) (hosts : HostMgr) :
    Except String (Option Module) × HostMgr :=
  match hook with
  | .fwk f => (f args, hosts)
  | .host f => f args hosts

/-- `HashMap::contains_key` on the association-list model of a
`HashMap<String, A>`. -/
def containsKey {A : Type} (m : List (String × A)) (k : String) : Bool :=
  match m with
  | [] => false
  | e :: t => e.1 == k || containsKey t k

/-- `HashMap::get` on the association-list model. -/
def getVal {A : Type} (m : List (String × A)) (k : String) : Option A :=
  match m with
  | [] => none
  | e :: t => if e.1 == k then some e.2 else getVal t k

/-- Replace the value bound to `k` (first occurrence). -/
def replaceKV {A : Type} (m : List (String × A)) (k : String) (v : A) :
    List (String × A) :=
  match m with
  | [] => []
  | e :: t => if e.1 == k then (k, v) :: t else e :: replaceKV t k v

/-- `HashMap::insert` on the association-list model: replaces the binding
when the key is present, otherwise appends it (keys stay unique and in
insertion order). -/
def insertKV {A : Type} (m : List (String × A)) (k : String) (v : A) :
    List (String × A) :=
  if containsKey m k then replaceKV m k v else m ++ [(k, v)]

/-- `Framework`: owns the HostMgr handle, the ordered name list, the hook
registry and the running-module registry. -/
structure Framework where
  hosts : HostMgr
  names : List String
  hooks : List (String × Hook)
  modules : List (String × Module)

/-- `Framework::new`. -/
def Framework.new (hostmgr : HostMgr) : Framework :=
  { hosts := hostmgr, names := [], hooks := [], modules := [] }

/-- `Framework::hook_up`: if `name` is not yet a key of the hook registry,
push it onto `names` and insert the hook, returning `Ok(())`; otherwise
return `Err(())` and change nothing. -/
def Framework.hook_up (fw : Framework) (name : String) (hook : Hook) :
    Except Unit Unit × Framework :=
  if !(containsKey fw.hooks name) then
    (.ok (),
     { fw with names := fw.names ++ [name],
               hooks := insertKV fw.hooks name hook })
  else
    (.error (), fw)

/-- The `for (name, hook) in hooks` loop of `Framework::load_hooks_from`:
registers each entry via `hook_up`, pushing the message
`"<name> already bound"` for each collision and continuing past it.
Returns the collected error messages in order together with the final
framework state. -/
def loadLoop (fw : Framework) (entries : List (String × Hook)) :
    List String × Framework :=
  match entries with
  | [] => ([], fw)
  | (name, hook) :: rest =>
    match fw.hook_up name hook with
    | (.error (), fw1) =>
      let r := loadLoop fw1 rest
      ((name ++ " already bound") :: r.1, r.2)
    | (.ok (), fw1) => loadLoop fw1 rest

/-- `Framework::load_hooks_from(lib)`.  The external dynamic library is
modelled by the outcome of resolving and invoking its well-known entry
point `load`: `Except.error e` when `lib.get::<HookLoader>(b"load")` fails
with message `e`, and `Except.ok entries` when resolution succeeds and
`load()` yields the ordered `(name, Hook)` sequence `entries`.  On a
resolution failure the function returns `Err(vec![e])` at once, registering
nothing; otherwise it feeds every entry through `hook_up` and returns
`Err(errors)` when any collision message was collected, `Ok(())` when
none. -/
def Framework.load_hooks_from (fw : Framework)
    (lib : Except String (List (String × Hook))) :
    Except (List String) Unit × Framework :=
  match lib with
  | .error e => (.error [e], fw)
  | .ok entries =>
    let r := loadLoop fw entries
    (if r.1.length > 0 then .error r.1 else .ok (), r.2)

/-- The naming loop of `Framework::try_run_hook`:
`while self.modules.contains_key(&name) { name = format!("{}_{}", name, counter); counter += 1; }`.
The candidate name accumulates a `_counter` suffix on each iteration.  The
Rust loop terminates because successive candidates are pairwise distinct
and the registry is finite; the embedding makes this explicit with a fuel
argument, instantiated at `modules.length + 1`, which by pigeonhole is
never exhausted. -/
def freshKey (mods : List (String × Module)) (name : String)
    (counter : Nat) (fuel : Nat) : String :=
  match fuel with
  | 0 => name
  | f + 1 =>
    if containsKey mods name then
      freshKey mods (name ++ "_" ++ toString counter) (counter + 1) f
    else
      name

/-- `Framework::try_run_hook(name, args)`: look the hook up by name (absent
names fail with `"<name>: No such hook"`); call it with its capability-scoped
context; on `Ok(Some(module))` insert the module under the first unused
candidate key produced by the naming loop and return `Ok(true)`; on
`Ok(None)` return `Ok(false)`; on `Err(s)` pass `s` through unchanged. -/
def Framework.try_run_hook (fw : Framework) (name : String)
    (args : List String) : Except String Bool × Framework :=
  match getVal fw.hooks name with
  | some hook =>
    let pr := hook.call args fw.hosts
    let fw1 : Framework := { fw with hosts := pr.2 }
    match pr.1 with
    | .ok (some module) =>
      let key := freshKey fw1.modules name 0 (fw1.modules.length + 1)
      (.ok true, { fw1 with modules := insertKV fw1.modules key module })
    | .ok none => (.ok false, fw1)
    | .error s => (.error s, fw1)
  | none => (.error (name ++ ": No such hook"), fw)

/-- The registry bookkeeping invariant of `Framework`: the ordered name
list holds exactly the keys of the hook registry, in registration order,
with no duplicates. -/
def FrameworkInv (fw : Framework) : Prop :=
  fw.names = fw.hooks.map Prod.fst ∧ fw.names.Nodup

/- Concrete fixtures used to evaluate the definitions on closed inputs. -/

/-- A sample running module. -/
def sampleMod1 : Module := Module.new 10 11 none PackFilter.Closed

/-- A second sample running module. -/
def sampleMod2 : Module := Module.new 20 21 (some 22) (PackFilter.Entire 23)

/-- A third sample module, the one produced by `hkScan`. -/
def sampleMod3 : Module := Module.new 30 31 none (PackFilter.Payload 32)

/-- A sample HostMgr handle over cells 0, 1, 2. -/
def mgr0 : HostMgr := { gateway := 0, myself := 1, nethosts := 2 }

/-- A framework-scoped hook that succeeds and produces a module. -/
def hkScan : Hook := Hook.fwk (fun _ => .ok (some sampleMod3))

/-- A framework-scoped hook that succeeds producing no module. -/
def hkNone : Hook := Hook.fwk (fun _ => .ok none)

/-- A framework-scoped hook that fails with an opaque message. -/
def hkFail : Hook := Hook.fwk (fun _ => .error "scan failed: no interface")

/-- A framework with hook `scan` bound and modules already registered
under `scan` and `scan_0`. -/
def fwScanTwo : Framework :=
  { hosts := mgr0, names := ["scan"], hooks := [("scan", hkScan)],
    modules := [("scan", sampleMod1), ("scan_0", sampleMod2)] }

/-- A framework with hook `scan` bound and one module registered under
`scan`. -/
def fwScanOne : Framework :=
  { hosts := mgr0, names := ["scan"], hooks := [("scan", hkScan)],
    modules := [("scan", sampleMod1)] }

/-- A framework with the no-module hook `who` bound. -/
def fwWho : Framework :=
  { hosts := mgr0, names := ["who"], hooks := [("who", hkNone)],
    modules := [] }

/-- A framework with the failing hook `fail` bound. -/
def fwFail : Framework :=
  { hosts := mgr0, names := ["fail"], hooks := [("fail", hkFail)],
    modules := [] }

/-- A framework with only the name `b` bound. -/
def fwB : Framework :=
  { hosts := mgr0, names := ["b"], hooks := [("b", hkNone)],
    modules := [] }

/-- An empty framework. -/
def fwEmpty : Framework := Framework.new mgr0

/-- A three-entry batch whose middle name collides with `fwB`. -/
def batchABC : List (String × Hook) :=
  [("a", hkScan), ("b", hkFail), ("c", hkNone)]

/-- Two sample IPv4 addresses. -/
def ipA : Ipv4Addr := ⟨10, 0, 0, 1⟩

/-- A second sample IPv4 address. -/
def ipB : Ipv4Addr := ⟨10, 0, 0, 5⟩

/-- A sample NetPairList with two discovered hosts. -/
def sampleList : NetPairList :=
  { hosts := [ipA, ipB], macs := [(ipA, some ⟨1,2,3,4,5,6⟩), (ipB, none)] }

/- Helper lemmas about the association-list model and the store. -/

theorem containsKey_eq_isSome_getVal {A : Type} (m : List (String × A))
    (k : String) : containsKey m k = (getVal m k).isSome := by
  induction m with
  | nil => rfl
  | cons e t ih =>
    by_cases h : e.1 == k
    · simp [containsKey, getVal, h]
    · simp only [containsKey, getVal, h]
      simpa using ih

theorem getVal_replaceKV_self {A : Type} (m : List (String × A)) (k : String)
    (v : A) (h : containsKey m k = true) :
    getVal (replaceKV m k v) k = some v := by
  induction m with
  | nil => simp [containsKey] at h
  | cons e t ih =>
    by_cases he : e.1 == k
    · simp [replaceKV, getVal, he]
    · simp only [containsKey, he, Bool.false_or] at h
      simp [replaceKV, getVal, he, ih h]

theorem getVal_append_single_self {A : Type} (m : List (String × A))
    (k : String) (v : A) (h : containsKey m k = false) :
    getVal (m ++ [(k, v)]) k = some v := by
  induction m with
  | nil => simp [getVal]
  | cons e t ih =>
    simp only [containsKey, Bool.or_eq_false_iff] at h
    simp [getVal, h.1, ih h.2]

theorem getVal_insertKV_self {A : Type} (m : List (String × A)) (k : String)
    (v : A) : getVal (insertKV m k v) k = some v := by
  unfold insertKV
  by_cases h : containsKey m k = true
  · simp [h, getVal_replaceKV_self m k v h]
  · simp only [Bool.not_eq_true] at h
    simp [h, getVal_append_single_self m k v h]

theorem getVal_replaceKV_ne {A : Type} (m : List (String × A)) (k : String)
    (v : A) (kq : String) (h : kq ≠ k) :
    getVal (replaceKV m k v) kq = getVal m kq := by
  induction m with
  | nil => rfl
  | cons e t ih =>
    by_cases he : e.1 == k
    · have he2 : e.1 = k := by simpa using he
      have : (k == kq) = false := by
        simp [BEq.beq]
        exact fun hh => h hh.symm
      simp [replaceKV, getVal, he, this, he2]
    · simp [replaceKV, getVal, he, ih]

theorem getVal_append_single_ne {A : Type} (m : List (String × A))
    (k : String) (v : A) (kq : String) (h : kq ≠ k) :
    getVal (m ++ [(k, v)]) kq = getVal m kq := by
  induction m with
  | nil =>
    have : (k == kq) = false := by
      simp [BEq.beq]
      exact fun hh => h hh.symm
    simp [getVal, this]
  | cons e t ih =>
    by_cases he : e.1 == kq
    · simp [getVal, he]
    · simp [getVal, he, ih]

theorem getVal_insertKV_ne {A : Type} (m : List (String × A)) (k : String)
    (v : A) (kq : String) (h : kq ≠ k) :
    getVal (insertKV m k v) kq = getVal m kq := by
  unfold insertKV
  by_cases hc : containsKey m k = true
  · simp [hc, getVal_replaceKV_ne m k v kq h]
  · simp only [Bool.not_eq_true] at hc
    simp [hc, getVal_append_single_ne m k v kq h]

theorem containsKey_insertKV_ne {A : Type} (m : List (String × A))
    (k : String) (v : A) (kq : String) (h : kq ≠ k) :
    containsKey (insertKV m k v) kq = containsKey m kq := by
  rw [containsKey_eq_isSome_getVal, containsKey_eq_isSome_getVal,
    getVal_insertKV_ne m k v kq h]

theorem containsKey_eq_false_of_getVal_some {A : Type}
    (m : List (String × A)) (k kq : String) (v : A)
    (hv : getVal m k = some v) (hc : containsKey m kq = false) : k ≠ kq := by
  intro he
  subst he
  rw [containsKey_eq_isSome_getVal, hv] at hc
  simp at hc

theorem map_fst_insertKV {A : Type} (m : List (String × A)) (k : String)
    (v : A) (h : containsKey m k = false) :
    (insertKV m k v).map Prod.fst = m.map Prod.fst ++ [k] := by
  simp [insertKV, h]

theorem not_mem_map_fst {A : Type} (m : List (String × A)) (k : String)
    (h : containsKey m k = false) : k ∉ m.map Prod.fst := by
  induction m with
  | nil => simp
  | cons e t ih =>
    simp only [containsKey, Bool.or_eq_false_iff] at h
    have h1 : e.1 ≠ k := by simpa using h.1
    simp only [List.map_cons, List.mem_cons]
    rintro (rfl | hm)
    · exact h1 rfl
    · exact ih h.2 hm

theorem mem_map_fst_of_contains {A : Type} (m : List (String × A))
    (k : String) (h : containsKey m k = true) : k ∈ m.map Prod.fst := by
  induction m with
  | nil => simp [containsKey] at h
  | cons e t ih =>
    simp only [containsKey, Bool.or_eq_true] at h
    rcases h with h | h
    · simp [show e.1 = k by simpa using h]
    · simp [ih h]

theorem str_append_assoc (a b c : String) : a ++ b ++ c = a ++ (b ++ c) := by
  rcases a with ⟨da⟩
  rcases b with ⟨db⟩
  rcases c with ⟨dc⟩
  show String.mk (da ++ db ++ dc) = String.mk (da ++ (db ++ dc))
  rw [List.append_assoc]

theorem find?_map_overwrite {A : Type} (cells : List (Nat × A)) (id : Nat)
    (v : A) (h : cells.any (fun c => c.1 == id) = true) :
    ((cells.map (fun c => if c.1 == id then (id, v) else c)).find?
      (fun c => c.1 == id)) = some (id, v) := by
  induction cells with
  | nil => simp at h
  | cons c t ih =>
    by_cases hc : (c.1 == id) = true
    · rw [List.map_cons, if_pos hc]
      simp [List.find?]
    · have hc2 : (c.1 == id) = false := by simpa using hc
      simp only [List.any_cons, hc2, Bool.false_or] at h
      rw [List.map_cons, if_neg hc]
      simp only [List.find?, hc2]
      exact ih h

theorem readPair_writePair (s : Store) (id : Nat) (v : KnownPair) :
    (s.writePair id v).readPair id = some v := by
  unfold Store.writePair Store.readPair
  by_cases h : s.pairCells.any (fun c => c.1 == id) = true
  · simp only [h, if_true]
    rw [find?_map_overwrite s.pairCells id v h]
    rfl
  · simp only [h, if_false]
    simp [List.find?]

theorem readList_writeList (s : Store) (id : Nat) (v : NetPairList) :
    (s.writeList id v).readList id = some v := by
  unfold Store.writeList Store.readList
  by_cases h : s.listCells.any (fun c => c.1 == id) = true
  · simp only [h, if_true]
    rw [find?_map_overwrite s.listCells id v h]
    rfl
  · simp only [h, if_false]
    simp [List.find?]

theorem hook_up_inv (fw : Framework) (name : String) (hook : Hook)
    (h : FrameworkInv fw) : FrameworkInv (fw.hook_up name hook).2 := by
  by_cases hc : containsKey fw.hooks name = true
  · simpa [Framework.hook_up, hc] using h
  · have hc2 : containsKey fw.hooks name = false := by simpa using hc
    rcases h with ⟨h1, h2⟩
    have hn : name ∉ fw.names := by
      rw [h1]
      exact not_mem_map_fst fw.hooks name hc2
    constructor
    · simp only [Framework.hook_up, hc2, Bool.not_false, if_true]
      rw [h1, map_fst_insertKV fw.hooks name hook hc2]
    · simp only [Framework.hook_up, hc2, Bool.not_false, if_true]
      rw [List.nodup_append]
      exact ⟨h2, List.nodup_singleton name,
        fun a ha hb => hn (by rwa [show a = name by simpa using hb] at ha)⟩

theorem loadLoop_cons_pos (fw : Framework) (n : String) (hk : Hook)
    (rest : List (String × Hook)) (hc : containsKey fw.hooks n = true) :
    loadLoop fw ((n, hk) :: rest) =
      ((n ++ " already bound") :: (loadLoop fw rest).1,
       (loadLoop fw rest).2) := by
  simp [loadLoop, Framework.hook_up, hc]

theorem loadLoop_cons_neg (fw : Framework) (n : String) (hk : Hook)
    (rest : List (String × Hook)) (hc : containsKey fw.hooks n = false) :
    loadLoop fw ((n, hk) :: rest) =
      loadLoop { fw with names := fw.names ++ [n],
                         hooks := insertKV fw.hooks n hk } rest := by
  simp [loadLoop, Framework.hook_up, hc]

theorem loadLoop_getVal_mono (entries : List (String × Hook)) :
    ∀ (fw : Framework) (k : String) (v : Hook), getVal fw.hooks k = some v →
      getVal (loadLoop fw entries).2.hooks k = some v := by
  induction entries with
  | nil => intro fw k v h; simpa [loadLoop] using h
  | cons e rest ih =>
    intro fw k v h
    obtain ⟨n, hk⟩ := e
    by_cases hc : containsKey fw.hooks n = true
    · rw [loadLoop_cons_pos fw n hk rest hc]
      exact ih fw k v h
    · have hc2 : containsKey fw.hooks n = false := by simpa using hc
      rw [loadLoop_cons_neg fw n hk rest hc2]
      apply ih
      have hne : k ≠ n := containsKey_eq_false_of_getVal_some fw.hooks k n v h hc2
      have hgv : getVal (insertKV fw.hooks n hk) k = some v := by
        rw [getVal_insertKV_ne fw.hooks n hk k hne]
        exact h
      exact hgv

theorem loadLoop_errors (entries : List (String × Hook)) :
    ∀ fw : Framework, (entries.map Prod.fst).Nodup →
      (loadLoop fw entries).1 =
        (entries.filter (fun e => containsKey fw.hooks e.1)).map
          (fun e => e.1 ++ " already bound") := by
  induction entries with
  | nil => intro fw _; simp [loadLoop]
  | cons e rest ih =>
    intro fw hnd
    obtain ⟨n, hk⟩ := e
    simp only [List.map_cons, List.nodup_cons] at hnd
    by_cases hc : containsKey fw.hooks n = true
    · rw [loadLoop_cons_pos fw n hk rest hc,
        List.filter_cons_of_pos (by simpa using hc), List.map_cons,
        ih fw hnd.2]
    · have hc2 : containsKey fw.hooks n = false := by simpa using hc
      rw [loadLoop_cons_neg fw n hk rest hc2,
        List.filter_cons_of_neg (by simpa using hc2)]
      rw [ih _ hnd.2]
      apply congrArg
      apply List.filter_congr
      intro x hx
      have hxn : x.1 ≠ n := by
        intro he
        exact hnd.1 (he ▸ List.mem_map_of_mem Prod.fst hx)
      exact containsKey_insertKV_ne fw.hooks n hk x.1 hxn

theorem loadLoop_registers (entries : List (String × Hook)) :
    ∀ fw : Framework, (entries.map Prod.fst).Nodup →
      ∀ e ∈ entries, containsKey fw.hooks e.1 = false →
        getVal (loadLoop fw entries).2.hooks e.1 = some e.2 := by
  induction entries with
  | nil => intro fw _ e he; simp at he
  | cons hd rest ih =>
    intro fw hnd e he hce
    obtain ⟨n, hk⟩ := hd
    simp only [List.map_cons, List.nodup_cons] at hnd
    rcases List.mem_cons.mp he with rfl | hmem
    · rw [loadLoop_cons_neg fw n hk rest hce]
      exact loadLoop_getVal_mono rest _ n hk (getVal_insertKV_self fw.hooks n hk)
    · by_cases hc : containsKey fw.hooks n = true
      · rw [loadLoop_cons_pos fw n hk rest hc]
        exact ih fw hnd.2 e hmem hce
      · have hc2 : containsKey fw.hooks n = false := by simpa using hc
        rw [loadLoop_cons_neg fw n hk rest hc2]
        apply ih _ hnd.2 e hmem
        have hen : e.1 ≠ n := by
          intro heq
          exact hnd.1 (heq ▸ List.mem_map_of_mem Prod.fst hmem)
        have hck : containsKey (insertKV fw.hooks n hk) e.1 = false := by
          rw [containsKey_insertKV_ne fw.hooks n hk e.1 hen]
          exact hce
        exact hck

theorem loadLoop_inv (entries : List (String × Hook)) :
    ∀ fw : Framework, FrameworkInv fw → FrameworkInv (loadLoop fw entries).2 := by
  induction entries with
  | nil => intro fw h; simpa [loadLoop] using h
  | cons hd rest ih =>
    intro fw h
    obtain ⟨n, hk⟩ := hd
    by_cases hc : containsKey fw.hooks n = true
    · rw [loadLoop_cons_pos fw n hk rest hc]
      exact ih fw h
    · have hc2 : containsKey fw.hooks n = false := by simpa using hc
      rw [loadLoop_cons_neg fw n hk rest hc2]
      apply ih
      have := hook_up_inv fw n hk h
      simpa [Framework.hook_up, hc2] using this

theorem try_run_hook_preserves_registries (fw : Framework) (name : String)
    (args : List String) :
    (fw.try_run_hook name args).2.names = fw.names ∧
    (fw.try_run_hook name args).2.hooks = fw.hooks := by
  cases hg : getVal fw.hooks name with
  | none => simp [Framework.try_run_hook, hg]
  | some hook =>
    cases hr : (hook.call args fw.hosts).1 with
    | error s => simp [Framework.try_run_hook, hg, hr]
    | ok mo => cases mo <;> simp [Framework.try_run_hook, hg, hr]

theorem freshKey_succ (mods : List (String × Module)) (name : String)
    (counter f : Nat) :
    freshKey mods name counter (f + 1) =
      if containsKey mods name then
        freshKey mods (name ++ "_" ++ toString counter) (counter + 1) f
      else
        name := rfl

/-- Claim C2: if `name` is already bound in the hook registry, `hook_up`
returns the collision error and leaves the whole framework (in particular
the binding for `name`) unchanged; if `name` is unbound, `hook_up` binds
the hook under `name`, appends `name` to the ordered name list, and
returns success. -/
theorem hook_up_spec (fw : Framework) (name : String) (hook : Hook) :
    (containsKey fw.hooks name = true →
      fw.hook_up name hook = (.error (), fw)) ∧
    (containsKey fw.hooks name = false →
      (fw.hook_up name hook).1 = .ok () ∧
      getVal (fw.hook_up name hook).2.hooks name = some hook ∧
      (fw.hook_up name hook).2.names = fw.names ++ [name]) := by
  constructor
  · intro h
    simp [Framework.hook_up, h]
  · intro h
    refine ⟨by simp [Framework.hook_up, h], ?_, by simp [Framework.hook_up, h]⟩
    simp only [Framework.hook_up, h, Bool.not_false, if_true]
    exact getVal_insertKV_self fw.hooks name hook

/-- Witness for C2 at concrete inputs: re-registering the bound name `b`
collides and leaves `fwB` untouched, while registering the fresh name `c`
succeeds. -/
theorem hook_up_spec_w :
    fwB.hook_up "b" hkFail = (.error (), fwB) ∧
    (fwB.hook_up "c" hkFail).1 = .ok () :=
  ⟨(hook_up_spec fwB "b" hkFail).1 rfl,
   ((hook_up_spec fwB "c" hkFail).2 rfl).1⟩

/-- Claim C4: invoking a name with no bound hook fails with the message
identifying the missing hook by name, and the framework — hook registry,
module registry, ordered name list and host state — is returned
unchanged. -/
theorem try_run_hook_unknown (fw : Framework) (name : String)
    (args : List String) (h : getVal fw.hooks name = none) :
    fw.try_run_hook name args = (.error (name ++ ": No such hook"), fw) := by
  simp [Framework.try_run_hook, h]

/-- Witness for C4: invoking `missing` on the empty framework. -/
theorem try_run_hook_unknown_w :
    fwEmpty.try_run_hook "missing" [] =
      (.error ("missing" ++ ": No such hook"), fwEmpty) :=
  try_run_hook_unknown fwEmpty "missing" [] rfl

/-- Claim C5: when the looked-up hook itself fails, `try_run_hook`
propagates the hook's error message verbatim and registers nothing: the
module registry is unchanged. -/
theorem try_run_hook_hook_error (fw : Framework) (name : String)
    (args : List String) (hook : Hook) (s : String)
    (hfind : getVal fw.hooks name = some hook)
    (hrun : (hook.call args fw.hosts).1 = .error s) :
    (fw.try_run_hook name args).1 = .error s ∧
    (fw.try_run_hook name args).2.modules = fw.modules := by
  constructor <;> simp [Framework.try_run_hook, hfind, hrun]

/-- Witness for C5: the failing hook `fail` propagates its message and
adds no module. -/
theorem try_run_hook_hook_error_w :
    (fwFail.try_run_hook "fail" []).1 = .error "scan failed: no interface" ∧
    (fwFail.try_run_hook "fail" []).2.modules = fwFail.modules :=
  try_run_hook_hook_error fwFail "fail" [] hkFail
    "scan failed: no interface" rfl rfl

/-- Claim C6: when the looked-up hook succeeds without producing a module,
`try_run_hook` reports the boolean `false` (not an error) and the module
registry — in particular its size — is unchanged. -/
theorem try_run_hook_no_module (fw : Framework) (name : String)
    (args : List String) (hook : Hook)
    (hfind : getVal fw.hooks name = some hook)
    (hrun : (hook.call args fw.hosts).1 = .ok none) :
    (fw.try_run_hook name args).1 = .ok false ∧
    (fw.try_run_hook name args).2.modules = fw.modules ∧
    (fw.try_run_hook name args).2.modules.length = fw.modules.length := by
  refine ⟨?_, ?_, ?_⟩ <;> simp [Framework.try_run_hook, hfind, hrun]

/-- Witness for C6: the no-module hook `who` reports `false` and the
module registry stays empty. -/
theorem try_run_hook_no_module_w :
    (fwWho.try_run_hook "who" []).1 = .ok false ∧
    (fwWho.try_run_hook "who" []).2.modules = fwWho.modules ∧
    (fwWho.try_run_hook "who" []).2.modules.length = fwWho.modules.length :=
  try_run_hook_no_module fwWho "who" [] hkNone rfl rfl

/-- Claim C7: `NetPairList.len` is the length of the ordered host sequence
exposed by `hosts()`, indexed lookup at `i < len` returns the i-th element
of that sequence, and lookup at `i ≥ len` returns nothing. -/
theorem netPairList_get_spec (l : NetPairList) (i : Nat) :
    l.len = l.hostsView.length ∧
    (∀ h : i < l.len, l.get i = some (l.hosts.get ⟨i, h⟩)) ∧
    (l.len ≤ i → l.get i = none) := by
  refine ⟨rfl, ?_, ?_⟩
  · intro h
    show l.hosts[i]? = some (l.hosts.get ⟨i, h⟩)
    rw [List.getElem?_eq_getElem h]
    simp [List.get_eq_getElem]
  · intro h
    exact List.getElem?_eq_none h

/-- Witness for C7 on a concrete two-host list: in-range lookup returns
the first host, out-of-range lookup returns nothing. -/
theorem netPairList_get_spec_w :
    sampleList.len = sampleList.hostsView.length ∧
    sampleList.get 0 = some ipA ∧
    sampleList.get 5 = none := by
  refine ⟨(netPairList_get_spec sampleList 0).1, ?_,
    (netPairList_get_spec sampleList 5).2.2 (by decide)⟩
  exact (netPairList_get_spec sampleList 0).2.1 (by decide)

/-- Claim C8: when the well-known entry point `load` cannot be resolved
from the external library, `load_hooks_from` fails with exactly the single
message of that resolution error and registers nothing — the framework is
returned unchanged. -/
theorem load_hooks_from_entry_point_failure (fw : Framework) (e : String) :
    fw.load_hooks_from (.error e) = (.error [e], fw) := rfl

/-- Claim C9: cloning a HostMgr copies the three cell identifiers rather
than the cell contents, so a write performed through the clone on any of
the three slots is read back through the original handle (and the reverse),
once the slot lock has been released. -/
theorem hostMgr_clone_aliasing (s : Store) (m : HostMgr) (v : KnownPair)
    (nl : NetPairList) :
    m.clone.gateway = m.gateway ∧
    m.clone.myself = m.myself ∧
    m.clone.nethosts = m.nethosts ∧
    HostMgr.readGateway m (HostMgr.writeGateway m.clone s v) = some v ∧
    HostMgr.readGateway m.clone (HostMgr.writeGateway m s v) = some v ∧
    HostMgr.readMyself m (HostMgr.writeMyself m.clone s v) = some v ∧
    HostMgr.readMyself m.clone (HostMgr.writeMyself m s v) = some v ∧
    HostMgr.readNethosts m (HostMgr.writeNethosts m.clone s nl) = some nl ∧
    HostMgr.readNethosts m.clone (HostMgr.writeNethosts m s nl) = some nl :=
  ⟨rfl, rfl, rfl,
   readPair_writePair s m.gateway v, readPair_writePair s m.gateway v,
   readPair_writePair s m.myself v, readPair_writePair s m.myself v,
   readList_writeList s m.nethosts nl, readList_writeList s m.nethosts nl⟩

/-- Counterexample to C1 as stated: with modules already registered under
`scan` and `scan_0`, the claim predicts the next `scan` instance is keyed
`scan_1` (the first unused of `name_0, name_1, ...`); the naming loop
instead appends the counter to the previously tried candidate, inserting
under `scan_0_1` and leaving `scan_1` unused. -/
theorem try_run_hook_suffix_counterexample :
    (fwScanTwo.try_run_hook "scan" []).1 = .ok true ∧
    containsKey (fwScanTwo.try_run_hook "scan" []).2.modules "scan_1" = false ∧
    containsKey (fwScanTwo.try_run_hook "scan" []).2.modules "scan_0_1" = true := by
  refine ⟨rfl, ?_, ?_⟩ <;> rfl

/-- Claim C1 (amended): on success with a module, `try_run_hook` returns
`true`; when the invoked name is unused in the module registry the module
is appended under exactly that name, and when the name is used but
`name_0` is not, it is appended under `name_0` — so invoking `scan` twice
in sequence registers `scan` then `scan_0`, both simultaneously present.
Further collisions suffix the previously tried candidate (`name_0_1`,
`name_0_1_2`, ...) rather than the base name, which is the sole amendment
forced by the counterexample. -/
theorem try_run_hook_module_naming (fw : Framework) (name : String)
    (args : List String) (hook : Hook) (m : Module)
    (hfind : getVal fw.hooks name = some hook)
    (hrun : (hook.call args fw.hosts).1 = .ok (some m)) :
    (fw.try_run_hook name args).1 = .ok true ∧
    (containsKey fw.modules name = false →
      (fw.try_run_hook name args).2.modules = fw.modules ++ [(name, m)]) ∧
    (containsKey fw.modules name = true →
      containsKey fw.modules (name ++ "_0") = false →
      (fw.try_run_hook name args).2.modules = fw.modules ++ [(name ++ "_0", m)]) := by
  refine ⟨by simp [Framework.try_run_hook, hfind, hrun], ?_, ?_⟩
  · intro hc
    have hkey : freshKey fw.modules name 0 (fw.modules.length + 1) = name := by
      rw [freshKey_succ, hc]
      simp
    simp [Framework.try_run_hook, hfind, hrun, hkey, insertKV, hc]
  · intro hc hc0
    have happ : name ++ "_" ++ toString (0 : Nat) = name ++ "_0" := by
      rw [str_append_assoc]
      rfl
    obtain ⟨t, ht⟩ : ∃ t, fw.modules.length = t + 1 := by
      cases hm : fw.modules with
      | nil => rw [hm] at hc; simp [containsKey] at hc
      | cons a b => exact ⟨b.length, by simp [hm]⟩
    have hkey : freshKey fw.modules name 0 (fw.modules.length + 1) =
        name ++ "_0" := by
      rw [ht, freshKey_succ, hc, if_pos rfl, happ, freshKey_succ, hc0,
        if_neg (by simp)]
    have hck0 : containsKey fw.modules (name ++ "_0") = false := hc0
    simp [Framework.try_run_hook, hfind, hrun, hkey, insertKV, hck0]

/-- Witness for C1 (amended) at a concrete input: with one `scan` module
registered, a second successful `scan` invocation returns `true` and the
registry becomes the old one with `scan_0` appended — both instances
present. -/
theorem try_run_hook_module_naming_w :
    (fwScanOne.try_run_hook "scan" []).1 = .ok true ∧
    (fwScanOne.try_run_hook "scan" []).2.modules =
      fwScanOne.modules ++ [("scan" ++ "_0", sampleMod3)] := by
  have h := try_run_hook_module_naming fwScanOne "scan" [] hkScan sampleMod3
    rfl rfl
  exact ⟨h.1, h.2.2 rfl rfl⟩

/-- Claim C3: batch loading with pairwise distinct entry names registers
every entry whose name was not already bound (it does not stop at the
first collision), collects exactly one `already bound` message per
colliding entry, and returns success exactly when no entry collided. -/
theorem load_hooks_from_batch (fw : Framework) (entries : List (String × Hook))
    (hnd : (entries.map Prod.fst).Nodup) :
    (∀ e ∈ entries, containsKey fw.hooks e.1 = false →
      getVal (fw.load_hooks_from (.ok entries)).2.hooks e.1 = some e.2) ∧
    ((entries.filter (fun e => containsKey fw.hooks e.1)).length = 0 →
      (fw.load_hooks_from (.ok entries)).1 = .ok ()) ∧
    (0 < (entries.filter (fun e => containsKey fw.hooks e.1)).length →
      (fw.load_hooks_from (.ok entries)).1 =
        .error ((entries.filter (fun e => containsKey fw.hooks e.1)).map
          (fun e => e.1 ++ " already bound"))) := by
  have herr := loadLoop_errors entries fw hnd
  refine ⟨?_, ?_, ?_⟩
  · intro e he hce
    show getVal (loadLoop fw entries).2.hooks e.1 = some e.2
    exact loadLoop_registers entries fw hnd e he hce
  · intro h0
    have hnil : (loadLoop fw entries).1 = [] := by
      rw [herr, List.length_eq_zero.mp h0]
      rfl
    show (if (loadLoop fw entries).1.length > 0 then
        Except.error (loadLoop fw entries).1 else Except.ok ()) = Except.ok ()
    rw [hnil]
    simp
  · intro hpos
    have hlen : (loadLoop fw entries).1.length > 0 := by
      rw [herr, List.length_map]
      exact hpos
    show (if (loadLoop fw entries).1.length > 0 then
        Except.error (loadLoop fw entries).1 else Except.ok ()) =
      Except.error ((entries.filter (fun e => containsKey fw.hooks e.1)).map
        (fun e => e.1 ++ " already bound"))
    rw [if_pos hlen, herr]

/-- Witness for C3 on the spec scenario: a batch of three against a
framework with `b` bound registers the two fresh hooks `a` and `c` and
reports exactly the one collision message for `b`. -/
theorem load_hooks_from_batch_w :
    getVal (fwB.load_hooks_from (.ok batchABC)).2.hooks "a" = some hkScan ∧
    getVal (fwB.load_hooks_from (.ok batchABC)).2.hooks "c" = some hkNone ∧
    (fwB.load_hooks_from (.ok batchABC)).1 = .error ["b already bound"] := by
  have h := load_hooks_from_batch fwB batchABC (by decide)
  refine ⟨h.1 ("a", hkScan) (List.Mem.head _) rfl,
    h.1 ("c", hkNone) (List.Mem.tail _ (List.Mem.tail _ (List.Mem.head _))) rfl,
    ?_⟩
  exact h.2.2 (by decide)

/-- Claim C10: the registry invariant — the ordered name list holds
exactly the keys of the hook registry, without duplicates, in registration
order — holds for a new framework and is preserved by `hook_up` and
`load_hooks_from`; a failed `hook_up` changes nothing at all, and
`try_run_hook` never modifies the name list or the hook registry. -/
theorem framework_registry_invariant :
    (∀ m : HostMgr, FrameworkInv (Framework.new m)) ∧
    (∀ (fw : Framework) (name : String) (hook : Hook),
      FrameworkInv fw → FrameworkInv (fw.hook_up name hook).2) ∧
    (∀ (fw : Framework) (name : String) (hook : Hook),
      (fw.hook_up name hook).1 = .error () → (fw.hook_up name hook).2 = fw) ∧
    (∀ (fw : Framework) (lib : Except String (List (String × Hook))),
      FrameworkInv fw → FrameworkInv (fw.load_hooks_from lib).2) ∧
    (∀ (fw : Framework) (name : String) (args : List String),
      (fw.try_run_hook name args).2.names = fw.names ∧
      (fw.try_run_hook name args).2.hooks = fw.hooks) := by
  refine ⟨?_, ?_, ?_, ?_, ?_⟩
  · intro m
    exact ⟨rfl, List.nodup_nil⟩
  · exact hook_up_inv
  · intro fw name hook h
    by_cases hc : containsKey fw.hooks name = true
    · simp [Framework.hook_up, hc]
    · have hc2 : containsKey fw.hooks name = false := by simpa using hc
      simp [Framework.hook_up, hc2] at h
  · intro fw lib h
    cases lib with
    | error e => exact h
    | ok entries =>
      show FrameworkInv (loadLoop fw entries).2
      exact loadLoop_inv entries fw h
  · exact try_run_hook_preserves_registries

/-- Witness for C10 at concrete inputs: the invariant holds after a fresh
registration on `fwB`, and the failed re-registration of `b` leaves `fwB`
unchanged. -/
theorem framework_registry_invariant_w :
    FrameworkInv ((fwB.hook_up "c" hkNone).2) ∧
    (fwB.hook_up "b" hkNone).2 = fwB :=
  ⟨framework_registry_invariant.2.1 fwB "c" hkNone ⟨rfl, by decide⟩,
   framework_registry_invariant.2.2.1 fwB "b" hkNone rfl⟩

end Rustneedle
